import Mathlib

/-!
# Verification of the lightning-pose DALI data-loading adapter

A shallow embedding of `lightning_pose/data/dali.py`, centered on the
context-windowing routine `get_context_from_seq` and the iterator wrapper
`LightningWrapper`, together with proofs about their behaviour.

Tensors are modelled along their leading (frame) dimension: a sequence
tensor is a list of abstract frames plus the metadata the code actually
consults (per-frame shape `shape[1:]`, dtype, device).  Torch operations
used by the source (`zeros`, `tile`, `cat`, slicing, in-place slice
assignment with broadcasting) are embedded with Python/torch semantics,
and fallible steps return `Except TorchError`.
-/

namespace LightningPose

/-- Torch dtypes relevant to this pipeline.  `torch.zeros` without an
explicit `dtype` argument produces the torch default, `float32`. -/
inductive DType
  | float32
  | float64
  | float16
  deriving DecidableEq, Repr

/-- Device of a tensor; the module picks `"gpu"` when CUDA is available
and `"cpu"` otherwise. -/
inductive Device
  | cpu
  | gpu
  deriving DecidableEq, Repr

/-- A tensor of shape `(seq_len, *frameShape)` viewed along its leading
dimension: `frames` are the `seq_len` slices `t[0], t[1], ...`, each an
abstract frame of shape `frameShape` (in the source, `(3, H, W)`). -/
structure SeqTensor (α : Type) where
  frames : List α
  frameShape : List Nat
  dtype : DType
  device : Device
  deriving DecidableEq, Repr

/-- The output tensor of `get_context_from_seq`, of shape
`(seq_len, context_length, *frameShape)`, viewed as a list of windows,
each window a list of frames. -/
structure WindowedBatch (α : Type) where
  windows : List (List α)
  frameShape : List Nat
  dtype : DType
  device : Device
  deriving DecidableEq, Repr

/-- Errors raised by the torch operations the source invokes, plus the
`ConfigurationError` named by the specification.

`configurationError` is modelled from the spec: the specification's error
taxonomy demands a `ConfigurationError` rejecting an invalid
`context_length` before allocation; the source file contains no such
validation, so no code path below produces this constructor. -/
inductive TorchError
  | runtimeNegativeDim
  | indexError
  | runtimeShapeMismatch
  | configurationError
  deriving DecidableEq, Repr

instance decEqExcept {e b : Type _} [DecidableEq e] [DecidableEq b] :
    DecidableEq (Except e b) := fun x y =>
  match x, y with
  | .error a, .error c =>
    if h : a = c then .isTrue (by rw [h])
    else .isFalse (by intro hc; cases hc; exact h rfl)
  | .error _, .ok _ => .isFalse (by intro hc; cases hc)
  | .ok _, .error _ => .isFalse (by intro hc; cases hc)
  | .ok a, .ok c =>
    if h : a = c then .isTrue (by rw [h])
    else .isFalse (by intro hc; cases hc; exact h rfl)

/-- Python slice `xs[start:stop]` for nonnegative bounds: clamped to the
list length, empty when `stop ≤ start`, never an error. -/
def pySlice (xs : List α) (start stop : Nat) : List α :=
  (xs.take stop).drop start

/-- In-place slice assignment `dst[i] = rhs` where `dst[i]` has leading
dimension `c` and `rhs` has leading dimension `rhs.length`: torch copies
when the lengths agree, broadcasts a singleton leading dimension, and
raises a RuntimeError otherwise.  Returns the frames written. -/
def copyInto (c : Nat) (rhs : List α) : Except TorchError (List α) :=
  if rhs.length = c then .ok rhs
  else
    match rhs with
    | [a] => .ok (List.replicate c a)
    | _ => .error .runtimeShapeMismatch

/-- The padded sequence built by `get_context_from_seq`:
`torch.cat((pad_start, img_seq, pad_end), dim=0)` where `pad_start` is two
copies of frame 0 and `pad_end` two copies of the last frame. -/
def paddedOf (frames : List α) : List α :=
  match frames with
  | [] => []
  | f0 :: rest => [f0, f0] ++ (f0 :: rest) ++ [rest.getLastD f0, rest.getLastD f0]

/-- The `for i in range(seq_len)` loop of `get_context_from_seq`: each
iteration executes `train_seq[i] = padded_seq[i : i + context_length]`,
collecting the windows written; the first broadcast failure aborts the
call with torch's RuntimeError. -/
def windowsCore (frames : List α) (c : Nat) : Except TorchError (List (List α)) :=
  (List.range frames.length).mapM
    (fun i => copyInto c (pySlice (paddedOf frames) i (i + c)))

/-- Embedding of `get_context_from_seq(img_seq, context_length)`.

Mirrors the source line by line:
`img_shape = img_seq.shape[1:]`; `seq_len = img_seq.shape[0]`;
`train_seq = torch.zeros((seq_len, context_length, *img_shape),
device=img_seq.device)` (RuntimeError when `context_length < 0`; dtype is
the torch default `float32`); `pad_start`/`pad_end` tile `img_seq[0]` and
`img_seq[-1]` twice (IndexError on an empty sequence); `padded_seq`
concatenates them around `img_seq`; then for each `i` in `range(seq_len)`,
`train_seq[i] = padded_seq[i : i + context_length]`, a slice-assignment
that truncates the slice at the end of `padded_seq` and raises a
RuntimeError when the truncated slice cannot be broadcast to length
`context_length`. -/
def get_context_from_seq (img_seq : SeqTensor α) (context_length : Int) :
    Except TorchError (WindowedBatch α) :=
  if context_length < 0 then .error .runtimeNegativeDim
  else
    match img_seq.frames with
    | [] => .error .indexError
    | _ :: _ =>
      match windowsCore img_seq.frames context_length.toNat with
      | .error e => .error e
      | .ok ws =>
          .ok { windows := ws, frameShape := img_seq.frameShape,
                dtype := DType.float32, device := img_seq.device }

/-! ## Basic lemmas about the embedded torch operations -/

/-- `mapM` over `Except` succeeds pointwise: when every element maps to
`.ok`, the whole traversal is the list of results. -/
theorem mapM_ok {ε β γ : Type _} (f : γ → Except ε β) (g : γ → β) :
    ∀ xs : List γ, (∀ x ∈ xs, f x = .ok (g x)) → xs.mapM f = .ok (xs.map g) := by
  intro xs h
  induction xs with
  | nil => rfl
  | cons a as ih =>
    rw [List.mapM_cons, h a (by simp), ih (fun x hx => h x (by simp [hx]))]
    rfl

theorem pySlice_length (xs : List α) (i c : Nat) (h : i + c ≤ xs.length) :
    (pySlice xs i (i + c)).length = c := by
  simp only [pySlice, List.length_drop, List.length_take]
  omega

/-- Element `j` of the slice `xs[i : i+c]` is element `i + j` of `xs`. -/
theorem pySlice_getD (xs : List α) (i c j : Nat) (d : α) (hj : j < c) :
    (pySlice xs i (i + c)).getD j d = xs.getD (i + j) d := by
  simp only [pySlice, List.getD_eq_getElem?_getD, List.getElem?_drop]
  rw [List.getElem?_take_of_lt (by omega)]

theorem getLastD_eq_getD (rest : List α) (f0 d : α) :
    rest.getLastD f0 = (f0 :: rest).getD rest.length d := by
  induction rest generalizing f0 with
  | nil => rfl
  | cons a as ih =>
    have h1 : (a :: as).getLastD f0 = as.getLastD a := by cases as <;> rfl
    rw [h1, List.length_cons, List.getD_cons_succ]
    exact ih a

theorem paddedOf_cons (f0 : α) (rest : List α) :
    paddedOf (f0 :: rest) =
      f0 :: f0 :: ((f0 :: rest) ++ [rest.getLastD f0, rest.getLastD f0]) := rfl

theorem paddedOf_length (frames : List α) (h : frames ≠ []) :
    (paddedOf frames).length = frames.length + 4 := by
  cases frames with
  | nil => exact absurd rfl h
  | cons f0 rest => simp [paddedOf]

theorem paddedOf_eq (frames : List α) (h : frames ≠ []) (d : α) :
    paddedOf frames =
      [frames.getD 0 d, frames.getD 0 d] ++ frames ++
        [frames.getD (frames.length - 1) d, frames.getD (frames.length - 1) d] := by
  cases frames with
  | nil => exact absurd rfl h
  | cons f0 rest =>
    simp only [paddedOf, List.getD_cons_zero, List.length_cons, Nat.add_sub_cancel]
    rw [← getLastD_eq_getD rest f0 d]

/-- Elementwise description of the padded sequence: position `k` holds the
original frame at index `clamp(k - 2, 0, seq_len - 1)` (with `Nat`
subtraction realizing the lower clamp). -/
theorem paddedOf_getD (frames : List α) (h : frames ≠ []) (k : Nat) (d : α)
    (hk : k < frames.length + 4) :
    (paddedOf frames).getD k d =
      frames.getD (min (k - 2) (frames.length - 1)) d := by
  cases frames with
  | nil => exact absurd rfl h
  | cons f0 rest =>
    match k with
    | 0 => simp [paddedOf_cons]
    | 1 => simp [paddedOf_cons]
    | (m + 2) =>
      rw [paddedOf_cons, List.getD_cons_succ, List.getD_cons_succ]
      simp only [List.length_cons] at hk
      rcases Nat.lt_or_ge m (f0 :: rest).length with hm | hm
      · rw [List.getD_eq_getElem?_getD, List.getElem?_append_left hm,
            ← List.getD_eq_getElem?_getD]
        congr 1
        simp only [List.length_cons] at hm ⊢
        omega
      · rw [List.getD_eq_getElem?_getD, List.getElem?_append_right hm]
        have hL : ([rest.getLastD f0, rest.getLastD f0] :
              List α)[m - (f0 :: rest).length]?.getD d = rest.getLastD f0 := by
          simp only [List.length_cons] at hm hk
          rcases Nat.lt_or_ge (m - (f0 :: rest).length) 1 with h0 | h0
          · have h00 : m - (f0 :: rest).length = 0 := by
              simp only [List.length_cons] at h0 ⊢; omega
            rw [h00]; rfl
          · have h01 : m - (f0 :: rest).length = 1 := by
              simp only [List.length_cons] at h0 ⊢; omega
            rw [h01]; rfl
        rw [hL]
        have hmin : min (m + 2 - 2) ((f0 :: rest).length - 1) = rest.length := by
          simp only [List.length_cons] at hm ⊢
          omega
        rw [hmin]
        exact getLastD_eq_getD rest f0 d

/-! ## Characterization of `get_context_from_seq` on supported inputs -/

/-- With `context_length ≤ 5` every slice `padded[i : i + c]` taken by the
loop lies inside the padded sequence, so every in-place copy succeeds. -/
theorem windowsCore_ok (frames : List α) (c : Nat) (h1 : frames ≠ [])
    (h3 : c ≤ 5) :
    windowsCore frames c =
      .ok ((List.range frames.length).map
        (fun i => pySlice (paddedOf frames) i (i + c))) := by
  unfold windowsCore
  apply mapM_ok
  intro i hi
  rw [List.mem_range] at hi
  have hlen : i + c ≤ (paddedOf frames).length := by
    rw [paddedOf_length frames h1]
    omega
  simp [copyInto, pySlice_length _ _ _ hlen]

/-- On any nonempty sequence and any `0 ≤ context_length ≤ 5`, the call
succeeds and returns exactly the window slices of the padded sequence,
with the device carried over and the torch default dtype. -/
theorem get_context_eq (img_seq : SeqTensor α) (context_length : Int)
    (h1 : img_seq.frames ≠ []) (h2 : 0 ≤ context_length)
    (h3 : context_length ≤ 5) :
    get_context_from_seq img_seq context_length =
      .ok { windows := (List.range img_seq.frames.length).map
              (fun i => pySlice (paddedOf img_seq.frames) i (i + context_length.toNat)),
            frameShape := img_seq.frameShape,
            dtype := DType.float32, device := img_seq.device } := by
  obtain ⟨f0, rest, hfr⟩ : ∃ a l, img_seq.frames = a :: l := by
    cases hf : img_seq.frames with
    | nil => exact absurd hf h1
    | cons a l => exact ⟨a, l, rfl⟩
  have hc : context_length.toNat ≤ 5 := by omega
  unfold get_context_from_seq
  rw [if_neg (by omega)]
  rw [hfr, windowsCore_ok (f0 :: rest) context_length.toNat (by simp) hc]

/-- Every frame of the padded sequence is a frame of the original. -/
theorem mem_paddedOf (frames : List α) (x : α) (hx : x ∈ paddedOf frames) :
    x ∈ frames := by
  cases frames with
  | nil => simp [paddedOf] at hx
  | cons f0 rest =>
    rw [paddedOf_cons] at hx
    have hlast : rest.getLastD f0 ∈ f0 :: rest := List.getLastD_mem_cons rest f0
    simp only [List.mem_cons, List.mem_append] at hx
    rcases hx with h | h | h | h
    · simp [h]
    · simp [h]
    · simp [List.mem_cons, h]
    · simp only [List.mem_cons, List.not_mem_nil, or_false] at h
      rcases h with h | h <;> rw [h] <;> exact hlast

/-- Every frame of a window slice is a frame of the original sequence. -/
theorem mem_pySlice (xs : List α) (a b : Nat) (x : α)
    (hx : x ∈ pySlice xs a b) : x ∈ xs := by
  have h1 : x ∈ xs.take b := List.mem_of_mem_drop hx
  exact List.mem_of_mem_take h1

/-! ## Concrete inputs used by witnesses and counterexamples -/

/-- A three-frame sequence with frames labelled by distinct numbers,
per-frame shape `(3, 2, 2)`. -/
def tW : SeqTensor Nat :=
  { frames := [100, 200, 300], frameShape := [3, 2, 2],
    dtype := DType.float32, device := Device.cpu }

/-- A two-frame sequence with distinct frames, used to probe boundary
windows. -/
def tB : SeqTensor Nat :=
  { frames := [10, 20], frameShape := [3, 2, 2],
    dtype := DType.float32, device := Device.cpu }

/-- A one-frame sequence. -/
def tOne : SeqTensor Nat :=
  { frames := [7], frameShape := [3, 1, 1],
    dtype := DType.float32, device := Device.cpu }

/-- A one-frame sequence whose dtype is not the torch default. -/
def tF64 : SeqTensor Nat :=
  { frames := [5], frameShape := [3, 1, 1],
    dtype := DType.float64, device := Device.gpu }

/-! ## Claim theorems -/

/-- Claim C1: for every nonempty input sequence and every supported
`context_length` (positive and at most 5), the call succeeds, the padded
sequence is two copies of the first frame, the original frames, then two
copies of the last frame (length `seq_len + 4`), and the window at each
position `i` is the contiguous slice `padded[i : i + context_length]`. -/
theorem C1_windows_are_padded_slices (img_seq : SeqTensor α)
    (context_length : Int) (h1 : img_seq.frames ≠ [])
    (h2 : 1 ≤ context_length) (h3 : context_length ≤ 5) :
    ∃ wb : WindowedBatch α,
      get_context_from_seq img_seq context_length = .ok wb ∧
      (∀ d : α, paddedOf img_seq.frames =
        [img_seq.frames.getD 0 d, img_seq.frames.getD 0 d] ++ img_seq.frames ++
          [img_seq.frames.getD (img_seq.frames.length - 1) d,
           img_seq.frames.getD (img_seq.frames.length - 1) d]) ∧
      (paddedOf img_seq.frames).length = img_seq.frames.length + 4 ∧
      wb.windows.length = img_seq.frames.length ∧
      ∀ i, i < img_seq.frames.length →
        wb.windows.getD i [] =
          pySlice (paddedOf img_seq.frames) i (i + context_length.toNat) := by
  refine ⟨_, get_context_eq img_seq context_length h1 (by omega) h3,
    fun d => paddedOf_eq _ h1 d, paddedOf_length _ h1, by simp, ?_⟩
  intro i hi
  simp [List.getD_eq_getElem?_getD, List.getElem?_range hi]

theorem C1_witness :
    ∃ wb : WindowedBatch Nat,
      get_context_from_seq tW 5 = .ok wb ∧
      (∀ d : Nat, paddedOf tW.frames =
        [tW.frames.getD 0 d, tW.frames.getD 0 d] ++ tW.frames ++
          [tW.frames.getD (tW.frames.length - 1) d,
           tW.frames.getD (tW.frames.length - 1) d]) ∧
      (paddedOf tW.frames).length = tW.frames.length + 4 ∧
      wb.windows.length = tW.frames.length ∧
      ∀ i, i < tW.frames.length →
        wb.windows.getD i [] = pySlice (paddedOf tW.frames) i (i + (5 : Int).toNat) :=
  C1_windows_are_padded_slices tW 5 (by decide) (by decide) (by decide)

/-- Claim C2: for every nonempty input with per-frame shape `(3, H, W)`
and every supported `context_length`, the output has shape
`(seq_len, context_length, 3, H, W)`. -/
theorem C2_output_shape (img_seq : SeqTensor α) (context_length : Int)
    (H W : Nat) (h1 : img_seq.frames ≠ []) (h2 : 1 ≤ context_length)
    (h3 : context_length ≤ 5) (h4 : img_seq.frameShape = [3, H, W]) :
    ∃ wb : WindowedBatch α,
      get_context_from_seq img_seq context_length = .ok wb ∧
      wb.windows.length = img_seq.frames.length ∧
      (∀ w ∈ wb.windows, w.length = context_length.toNat) ∧
      wb.frameShape = [3, H, W] := by
  refine ⟨_, get_context_eq img_seq context_length h1 (by omega) h3, by simp, ?_, h4⟩
  intro w hw
  simp only [List.mem_map, List.mem_range] at hw
  obtain ⟨i, hi, rfl⟩ := hw
  refine pySlice_length _ _ _ ?_
  rw [paddedOf_length _ h1]
  omega

theorem C2_witness :
    ∃ wb : WindowedBatch Nat,
      get_context_from_seq tW 5 = .ok wb ∧
      wb.windows.length = tW.frames.length ∧
      (∀ w ∈ wb.windows, w.length = (5 : Int).toNat) ∧
      wb.frameShape = [3, 2, 2] :=
  C2_output_shape tW 5 2 2 (by decide) (by decide) (by decide) (by decide)

/-- A list of length at least 2 begins with its first two entries. -/
theorem take_two_eq (w : List α) (d : α) (h : 2 ≤ w.length) :
    w.take 2 = [w.getD 0 d, w.getD 1 d] := by
  match w with
  | [] => simp at h
  | [a] => simp at h
  | a :: b :: rest => rfl

/-- Dropping all but the final two entries of a list leaves exactly its
entries at positions `m` and `m + 1`. -/
theorem drop_pre_two_eq (w : List α) (m : Nat) (d : α) (h : w.length = m + 2) :
    w.drop m = [w.getD m d, w.getD (m + 1) d] := by
  induction m generalizing w with
  | zero =>
    match w with
    | [] => simp at h
    | [a] => simp at h
    | a :: b :: rest =>
      simp only [List.length_cons] at h
      have hr : rest = [] := List.eq_nil_of_length_eq_zero (by omega)
      subst hr
      rfl
  | succ n ih =>
    match w with
    | [] => simp at h
    | a :: rest =>
      simp only [List.length_cons] at h
      have := ih rest (by omega)
      simp only [List.drop_succ_cons, List.getD_cons_succ]
      exact this

theorem getD_mem_of_lt (l : List α) (i : Nat) (d : α) (hi : i < l.length) :
    l.getD i d ∈ l := by
  rw [List.getD_eq_getElem?_getD, List.getElem?_eq_getElem hi]
  exact List.getElem_mem hi

/-- Shared closed-form description of a successful call: the call
succeeds, the output has `seq_len` windows of length `context_length`,
and `output[i][j]` is the original frame at index
`clamp(i + j - 2, 0, seq_len - 1)`. -/
theorem get_context_closed_form (img_seq : SeqTensor α)
    (context_length : Int) (h1 : img_seq.frames ≠ [])
    (h2 : 0 ≤ context_length) (h3 : context_length ≤ 5) :
    ∃ wb : WindowedBatch α,
      get_context_from_seq img_seq context_length = .ok wb ∧
      wb.windows.length = img_seq.frames.length ∧
      (∀ w ∈ wb.windows, w.length = context_length.toNat) ∧
      ∀ i j, i < img_seq.frames.length → j < context_length.toNat →
        ∀ d : α,
          (wb.windows.getD i []).getD j d =
            img_seq.frames.getD
              (min (i + j - 2) (img_seq.frames.length - 1)) d := by
  refine ⟨_, get_context_eq img_seq context_length h1 h2 h3, by simp, ?_, ?_⟩
  · intro w hw
    simp only [List.mem_map, List.mem_range] at hw
    obtain ⟨i, hi, rfl⟩ := hw
    refine pySlice_length _ _ _ ?_
    rw [paddedOf_length _ h1]
    omega
  · intro i j hi hj d
    have hwin : ((List.range img_seq.frames.length).map
          (fun i => pySlice (paddedOf img_seq.frames) i
            (i + context_length.toNat))).getD i [] =
        pySlice (paddedOf img_seq.frames) i (i + context_length.toNat) := by
      simp [List.getD_eq_getElem?_getD, List.getElem?_range hi]
    rw [hwin, pySlice_getD _ _ _ _ _ hj, paddedOf_getD _ h1 _ _ (by omega)]

/-- Claim C10: for every nonempty sequence and `1 ≤ context_length ≤ 5`,
the assignment loop never fails and the output satisfies the closed form
`output[i][j] = frames[clamp(i + j - 2, 0, seq_len - 1)]` (the `Nat`
subtraction `i + j - 2` realizes the lower clamp at 0). -/
theorem C10_closed_form (img_seq : SeqTensor α) (context_length : Int)
    (h1 : img_seq.frames ≠ []) (h2 : 1 ≤ context_length)
    (h3 : context_length ≤ 5) :
    ∃ wb : WindowedBatch α,
      get_context_from_seq img_seq context_length = .ok wb ∧
      ∀ i j, i < img_seq.frames.length → j < context_length.toNat →
        ∀ d : α,
          (wb.windows.getD i []).getD j d =
            img_seq.frames.getD
              (min (i + j - 2) (img_seq.frames.length - 1)) d := by
  obtain ⟨wb, hok, _, _, hform⟩ :=
    get_context_closed_form img_seq context_length h1 (by omega) h3
  exact ⟨wb, hok, hform⟩

theorem C10_witness :
    ∃ wb : WindowedBatch Nat,
      get_context_from_seq tW 5 = .ok wb ∧
      ∀ i j, i < tW.frames.length → j < (5 : Int).toNat →
        ∀ d : Nat,
          (wb.windows.getD i []).getD j d =
            tW.frames.getD (min (i + j - 2) (tW.frames.length - 1)) d :=
  C10_closed_form tW 5 (by decide) (by decide) (by decide)

/-- Claim C3, counterexample: `context_length = 3` is in the supported
range (positive, at most 5), yet on the two-frame sequence `[10, 20]` the
window at position `seq_len - 1 = 1` is `[10, 10, 20]`: its final two
entries are not two copies of the last original frame `20`, so the window
does not end with the last frame repeated per the pad width of 2. -/
theorem C3_counterexample :
    (get_context_from_seq tB 3).map (fun wb => (wb.windows.getD 1 []).drop 1) =
      .ok [10, 20] ∧
    (get_context_from_seq tB 3).map (fun wb => (wb.windows.getD 1 []).drop 1) ≠
      .ok [20, 20] := by
  constructor <;> decide

/-- Claim C3, amended: for every nonempty input sequence and
`4 ≤ context_length ≤ 5`, the window at position 0 begins with two copies
of the first original frame and the window at position `seq_len - 1` ends
with two copies of the last original frame.  (For
`context_length ≤ 3` the last window ends inside the original frames, so
the claim's boundary property holds only for `context_length ∈ {4, 5}`.) -/
theorem C3_boundary_windows (img_seq : SeqTensor α) (context_length : Int)
    (h1 : img_seq.frames ≠ []) (h2 : 4 ≤ context_length)
    (h3 : context_length ≤ 5) :
    ∃ wb : WindowedBatch α,
      get_context_from_seq img_seq context_length = .ok wb ∧
      (∀ d : α, (wb.windows.getD 0 []).take 2 =
        [img_seq.frames.getD 0 d, img_seq.frames.getD 0 d]) ∧
      (∀ d : α,
        (wb.windows.getD (img_seq.frames.length - 1) []).drop
            (context_length.toNat - 2) =
          [img_seq.frames.getD (img_seq.frames.length - 1) d,
           img_seq.frames.getD (img_seq.frames.length - 1) d]) := by
  obtain ⟨wb, hok, hlen, hwlen, hform⟩ :=
    get_context_closed_form img_seq context_length h1 (by omega) h3
  have hn : 1 ≤ img_seq.frames.length := by
    cases hf : img_seq.frames with
    | nil => exact absurd hf h1
    | cons a l => simp
  have hc4 : 4 ≤ context_length.toNat := by omega
  have h0lt : 0 < wb.windows.length := by omega
  have hlast_lt : img_seq.frames.length - 1 < wb.windows.length := by omega
  have hw0 : (wb.windows.getD 0 []).length = context_length.toNat :=
    hwlen _ (getD_mem_of_lt _ _ _ h0lt)
  have hwl : (wb.windows.getD (img_seq.frames.length - 1) []).length =
      context_length.toNat :=
    hwlen _ (getD_mem_of_lt _ _ _ hlast_lt)
  refine ⟨wb, hok, ?_, ?_⟩
  · intro d
    rw [take_two_eq _ d (by omega)]
    rw [hform 0 0 (by omega) (by omega) d, hform 0 1 (by omega) (by omega) d]
    have e0 : min (0 + 0 - 2) (img_seq.frames.length - 1) = 0 := by omega
    rw [e0]
  · intro d
    have hsplit : (wb.windows.getD (img_seq.frames.length - 1) []).length =
        (context_length.toNat - 2) + 2 := by omega
    rw [drop_pre_two_eq _ _ d hsplit]
    rw [hform (img_seq.frames.length - 1) (context_length.toNat - 2)
        (by omega) (by omega) d,
      hform (img_seq.frames.length - 1) (context_length.toNat - 2 + 1)
        (by omega) (by omega) d]
    have e0 : min (img_seq.frames.length - 1 + (context_length.toNat - 2) - 2)
        (img_seq.frames.length - 1) = img_seq.frames.length - 1 := by omega
    have e1 : min (img_seq.frames.length - 1 + (context_length.toNat - 2 + 1) - 2)
        (img_seq.frames.length - 1) = img_seq.frames.length - 1 := by omega
    rw [e0, e1]

theorem C3_witness :
    ∃ wb : WindowedBatch Nat,
      get_context_from_seq tB 5 = .ok wb ∧
      (∀ d : Nat, (wb.windows.getD 0 []).take 2 =
        [tB.frames.getD 0 d, tB.frames.getD 0 d]) ∧
      (∀ d : Nat,
        (wb.windows.getD (tB.frames.length - 1) []).drop ((5 : Int).toNat - 2) =
          [tB.frames.getD (tB.frames.length - 1) d,
           tB.frames.getD (tB.frames.length - 1) d]) :=
  C3_boundary_windows tB 5 (by decide) (by decide) (by decide)

/-- Claim C4, counterexample: with `seq_len = 1` and
`context_length = 6 > seq_len + 4`, the call raises torch's RuntimeError
for a failed broadcast in the slice assignment, not the specification's
ConfigurationError. -/
theorem C4_counterexample :
    get_context_from_seq tOne 6 = .error .runtimeShapeMismatch ∧
    TorchError.runtimeShapeMismatch ≠ TorchError.configurationError := by
  constructor <;> decide

/-- Claim C4, amended: for every nonempty input sequence, calling with
`context_length > seq_len + 4` raises a runtime shape-mismatch error
(torch's RuntimeError from the failed broadcast of the truncated slice),
not a ConfigurationError; no truncated or out-of-bounds window is
returned. -/
theorem C4_oversized_context_raises (img_seq : SeqTensor α)
    (context_length : Int) (h1 : img_seq.frames ≠ [])
    (h2 : (img_seq.frames.length : Int) + 4 < context_length) :
    get_context_from_seq img_seq context_length =
      .error .runtimeShapeMismatch := by
  obtain ⟨f0, rest, hfr⟩ : ∃ a l, img_seq.frames = a :: l := by
    cases hf : img_seq.frames with
    | nil => exact absurd hf h1
    | cons a l => exact ⟨a, l, rfl⟩
  rw [hfr] at h2
  simp only [List.length_cons] at h2
  have hcpos : ¬ context_length < 0 := by omega
  have hc : rest.length + 5 < context_length.toNat := by omega
  have hslice : pySlice (paddedOf (f0 :: rest)) 0 (0 + context_length.toNat) =
      paddedOf (f0 :: rest) := by
    simp only [pySlice, Nat.zero_add, List.drop_zero]
    apply List.take_of_length_le
    rw [paddedOf_length _ (by simp)]
    simp only [List.length_cons]
    omega
  have hcopy : copyInto context_length.toNat
      (pySlice (paddedOf (f0 :: rest)) 0 (0 + context_length.toNat)) =
      .error .runtimeShapeMismatch := by
    rw [hslice, paddedOf_cons]
    simp only [copyInto]
    rw [if_neg (by
      simp only [List.length_cons, List.length_append, List.length_nil]
      omega)]
  have hcore : windowsCore (f0 :: rest) context_length.toNat =
      .error .runtimeShapeMismatch := by
    unfold windowsCore
    rw [List.length_cons, List.range_succ_eq_map, List.mapM_cons, hcopy]
    rfl
  unfold get_context_from_seq
  rw [if_neg hcpos, hfr, hcore]

theorem C4_witness :
    get_context_from_seq tB 8 = .error .runtimeShapeMismatch :=
  C4_oversized_context_raises tB 8 (by decide) (by decide)

/-- Claim C5, counterexample: `context_length = 0` raises nothing: the
call succeeds and returns one empty window per frame, shape
`(seq_len, 0, 3, H, W)`. -/
theorem C5_counterexample :
    get_context_from_seq tOne 0 =
      .ok { windows := [[]], frameShape := [3, 1, 1],
            dtype := DType.float32, device := Device.cpu } := by decide

/-- Claim C5, amended: a negative `context_length` raises torch's
RuntimeError for a negative dimension, raised at the allocation of the
output array (not a ConfigurationError before allocation), while
`context_length = 0` is silently accepted and returns `seq_len` empty
windows. -/
theorem C5_nonpositive_context (img_seq : SeqTensor α)
    (context_length : Int) :
    (context_length < 0 →
      get_context_from_seq img_seq context_length =
        .error .runtimeNegativeDim) ∧
    (img_seq.frames ≠ [] →
      get_context_from_seq img_seq 0 =
        .ok { windows := List.replicate img_seq.frames.length [],
              frameShape := img_seq.frameShape, dtype := DType.float32,
              device := img_seq.device }) := by
  constructor
  · intro hneg
    unfold get_context_from_seq
    rw [if_pos hneg]
  · intro h1
    rw [get_context_eq img_seq 0 h1 (by omega) (by omega)]
    have hmap : (List.range img_seq.frames.length).map
        (fun i => pySlice (paddedOf img_seq.frames) i (i + (0 : Int).toNat)) =
        List.replicate img_seq.frames.length ([] : List α) := by
      have hfn : ∀ i, pySlice (paddedOf img_seq.frames) i (i + (0 : Int).toNat) =
          ([] : List α) := by
        intro i
        simp only [pySlice, Int.toNat_zero, Nat.add_zero]
        apply List.drop_eq_nil_of_le
        simp only [List.length_take]
        omega
      rw [funext hfn, List.map_const', List.length_range]
    rw [hmap]

theorem C5_witness :
    (get_context_from_seq tOne (-3) = .error .runtimeNegativeDim) ∧
    (get_context_from_seq tOne 0 =
      .ok { windows := List.replicate tOne.frames.length [],
            frameShape := tOne.frameShape, dtype := DType.float32,
            device := tOne.device }) :=
  ⟨(C5_nonpositive_context tOne (-3)).1 (by decide),
   (C5_nonpositive_context tOne (-3)).2 (by decide)⟩

/-- Claim C6, counterexample: on an input of dtype float64 the output
dtype is the torch default float32 (the output buffer comes from
`torch.zeros` without a `dtype` argument), so the output dtype does not
match the input dtype. -/
theorem C6_counterexample :
    get_context_from_seq tF64 5 =
      .ok { windows := [[5, 5, 5, 5, 5]], frameShape := [3, 1, 1],
            dtype := DType.float32, device := Device.gpu } ∧
    DType.float32 ≠ tF64.dtype := by
  constructor <;> decide

/-- Claim C6, amended: on every valid input every output frame is one of
the input frames (values pass through the copy unchanged), and the device
of the output matches the input; the output dtype, however, is always the
torch default float32, so it matches the input dtype exactly when the
input is float32. -/
theorem C6_passthrough_device_dtype (img_seq : SeqTensor α)
    (context_length : Int) (h1 : img_seq.frames ≠ [])
    (h2 : 1 ≤ context_length) (h3 : context_length ≤ 5) :
    ∃ wb : WindowedBatch α,
      get_context_from_seq img_seq context_length = .ok wb ∧
      (∀ w ∈ wb.windows, ∀ f ∈ w, f ∈ img_seq.frames) ∧
      wb.device = img_seq.device ∧
      wb.dtype = DType.float32 ∧
      (img_seq.dtype = DType.float32 → wb.dtype = img_seq.dtype) := by
  refine ⟨_, get_context_eq img_seq context_length h1 (by omega) h3,
    ?_, rfl, rfl, fun h => h.symm⟩
  intro w hw f hf
  simp only [List.mem_map, List.mem_range] at hw
  obtain ⟨i, hi, rfl⟩ := hw
  exact mem_paddedOf _ _ (mem_pySlice _ _ _ _ hf)

theorem C6_witness :
    ∃ wb : WindowedBatch Nat,
      get_context_from_seq tW 5 = .ok wb ∧
      (∀ w ∈ wb.windows, ∀ f ∈ w, f ∈ tW.frames) ∧
      wb.device = tW.device ∧
      wb.dtype = DType.float32 ∧
      (tW.dtype = DType.float32 → wb.dtype = tW.dtype) :=
  C6_passthrough_device_dtype tW 5 (by decide) (by decide) (by decide)

/-! ## Storage-level embedding

To state purity (the input tensor is not mutated) and freshness of the
output, the same function is embedded once more against an explicit store
of tensor buffers.  A buffer holds the frames of one tensor along its
leading dimension; `torch.zeros`, `torch.tile` and `torch.cat` allocate
fresh buffers, and the slice assignment `train_seq[i] = ...` writes into
the `train_seq` buffer in place, at offset `i * context_length`. -/

/-- A store of tensor buffers; a tensor handle is an index into it. -/
structure Heap (α : Type) where
  bufs : List (List α)

def Heap.read (h : Heap α) (b : Nat) : Option (List α) := h.bufs[b]?

/-- Allocate a fresh buffer, returning its handle. -/
def Heap.alloc (h : Heap α) (content : List α) : Heap α × Nat :=
  ({ bufs := h.bufs ++ [content] }, h.bufs.length)

/-- Overwrite buffer `b` in place. -/
def Heap.write (h : Heap α) (b : Nat) (content : List α) : Heap α :=
  { bufs := h.bufs.set b content }

/-- In-place update `buf[off : off + s.length] = s` of one buffer. -/
def writeSeg (buf : List α) (off : Nat) (s : List α) : List α :=
  buf.take off ++ s ++ buf.drop (off + s.length)

/-- The `for i in range(seq_len)` loop over the store: each iteration
reads the padded buffer, slices it, and writes the (possibly broadcast)
result into the `train_seq` buffer at offset `i * c`. -/
def contextLoopH (c paddedBuf trainBuf : Nat) :
    List Nat → Heap α → Except TorchError (Heap α)
  | [], h => .ok h
  | i :: is, h =>
    match copyInto c (pySlice ((h.read paddedBuf).getD []) i (i + c)) with
    | .error e => .error e
    | .ok s =>
        contextLoopH c paddedBuf trainBuf is
          (h.write trainBuf (writeSeg ((h.read trainBuf).getD []) (i * c) s))

/-- Storage-level embedding of `get_context_from_seq`: `imgBuf` is the
handle of the input sequence, `z` the zero frame used by `torch.zeros`.
Allocation order follows the source: `train_seq` (zeros), `pad_start`,
`pad_end`, `padded_seq`, then the assignment loop.  Returns the final
store and the handle of the returned tensor. -/
def get_context_from_seq_heap (z : α) (h : Heap α) (imgBuf : Nat)
    (context_length : Int) : Except TorchError (Heap α × Nat) :=
  match h.read imgBuf with
  | none => .error .indexError
  | some frames =>
    if context_length < 0 then .error .runtimeNegativeDim
    else
      let c := context_length.toNat
      let alloc0 := h.alloc (List.replicate (frames.length * c) z)
      match frames with
      | [] => .error .indexError
      | f0 :: rest =>
        let alloc1 := alloc0.1.alloc [f0, f0]
        let alloc2 := alloc1.1.alloc [rest.getLastD f0, rest.getLastD f0]
        let alloc3 := alloc2.1.alloc (paddedOf frames)
        match contextLoopH c alloc3.2 alloc0.2 (List.range frames.length)
            alloc3.1 with
        | .error e => .error e
        | .ok h5 => .ok (h5, alloc0.2)

theorem writeSeg_length (buf s : List α) (off : Nat)
    (hoff : off + s.length ≤ buf.length) :
    (writeSeg buf off s).length = buf.length := by
  simp only [writeSeg, List.length_append, List.length_take, List.length_drop]
  omega

theorem writeSeg_take (buf s : List α) (off : Nat) (hoff : off ≤ buf.length) :
    (writeSeg buf off s).take (off + s.length) = buf.take off ++ s := by
  have h1 : (buf.take off ++ s).length = off + s.length := by
    simp only [List.length_append, List.length_take]
    omega
  simp only [writeSeg, List.append_assoc]
  rw [← List.append_assoc, List.take_append_eq_append_take, h1,
    List.take_of_length_le (by omega), Nat.sub_self, List.take_zero,
    List.append_nil]

/-- Master lemma for the store-level loop with `c ≤ 5`: starting at
window `k` with `m` windows to go, the loop succeeds, preserves every
buffer other than `train_seq`, keeps the store size, and leaves the
`train_seq` buffer holding its first `k * c` frames followed by the
remaining window slices. -/
theorem contextLoopH_ok (c paddedBuf trainBuf : Nat)
    (hne : paddedBuf ≠ trainBuf) (padded : List α) (n : Nat)
    (hpn : padded.length = n + 4) (hc : c ≤ 5) :
    ∀ (m k : Nat) (h : Heap α) (buf : List α), k + m = n →
      h.read paddedBuf = some padded →
      h.read trainBuf = some buf →
      buf.length = n * c →
      ∃ h' : Heap α,
        contextLoopH c paddedBuf trainBuf (List.range' k m) h = .ok h' ∧
        h'.bufs.length = h.bufs.length ∧
        (∀ j, j ≠ trainBuf → h'.read j = h.read j) ∧
        h'.read trainBuf = some (buf.take (k * c) ++
          ((List.range' k m).map
            (fun i => pySlice padded i (i + c))).flatten) := by
  intro m
  induction m with
  | zero =>
    intro k h buf hkm hpad htrain hbuf
    refine ⟨h, rfl, rfl, fun j _ => rfl, ?_⟩
    rw [htrain]
    simp only [List.range'_zero, List.map_nil, List.flatten_nil,
      List.append_nil]
    have hk : k = n := by omega
    rw [List.take_of_length_le (le_of_eq (by rw [hbuf, hk]))]
  | succ m ih =>
    intro k h buf hkm hpad htrain hbuf
    have hkn : k < n := by omega
    have hslice : (pySlice padded k (k + c)).length = c :=
      pySlice_length _ _ _ (by omega)
    have htb : trainBuf < h.bufs.length := by
      by_contra hcon
      rw [Heap.read, List.getElem?_eq_none (by omega)] at htrain
      exact Option.noConfusion htrain
    have hoff : k * c + c ≤ buf.length := by
      have hmul : (k + 1) * c ≤ n * c := Nat.mul_le_mul_right c (by omega)
      simp only [Nat.succ_mul] at hmul
      omega
    have hcopy : copyInto c (pySlice padded k (k + c)) =
        .ok (pySlice padded k (k + c)) := by
      simp [copyInto, hslice]
    have hWtrain : (h.write trainBuf
          (writeSeg buf (k * c) (pySlice padded k (k + c)))).read trainBuf =
        some (writeSeg buf (k * c) (pySlice padded k (k + c))) := by
      simp only [Heap.write, Heap.read]
      rw [List.getElem?_set_self (by simpa using htb)]
    have hWother : ∀ j, j ≠ trainBuf → (h.write trainBuf
          (writeSeg buf (k * c) (pySlice padded k (k + c)))).read j =
        h.read j := by
      intro j hj
      simp only [Heap.write, Heap.read]
      rw [List.getElem?_set_ne (by omega)]
    have hWbuflen : (writeSeg buf (k * c) (pySlice padded k (k + c))).length =
        n * c := by
      rw [writeSeg_length _ _ _ (by rw [hslice]; omega)]
      exact hbuf
    obtain ⟨h', hloop, hlen, hpres, hcontent⟩ :=
      ih (k + 1)
        (h.write trainBuf (writeSeg buf (k * c) (pySlice padded k (k + c))))
        (writeSeg buf (k * c) (pySlice padded k (k + c)))
        (by omega) (by rw [hWother _ hne]; exact hpad) hWtrain hWbuflen
    have hWlen : (h.write trainBuf
        (writeSeg buf (k * c) (pySlice padded k (k + c)))).bufs.length =
        h.bufs.length := by
      simp [Heap.write]
    refine ⟨h', ?_, by omega, ?_, ?_⟩
    · rw [List.range'_succ]
      simp only [contextLoopH]
      rw [hpad]
      simp only [Option.getD_some]
      rw [hcopy, htrain]
      simp only [Option.getD_some]
      exact hloop
    · intro j hj
      rw [hpres j hj, hWother j hj]
    · rw [hcontent]
      have htk : (writeSeg buf (k * c)
            (pySlice padded k (k + c))).take ((k + 1) * c) =
          buf.take (k * c) ++ pySlice padded k (k + c) := by
        have hkc : (k + 1) * c = k * c + (pySlice padded k (k + c)).length := by
          rw [hslice]
          simp [Nat.succ_mul]
        rw [hkc]
        exact writeSeg_take _ _ _ (by omega)
      rw [htk, List.range'_succ, List.map_cons, List.flatten_cons,
        List.append_assoc]

/-- Characterization of the storage-level run on supported inputs: four
fresh buffers are appended (`train_seq`, `pad_start`, `pad_end`,
`padded_seq`), every pre-existing buffer is untouched, the returned
handle is the `train_seq` buffer freshly allocated at index
`h.bufs.length`, and it holds the window slices in order. -/
theorem get_context_heap_ok (z : α) (h : Heap α) (imgBuf : Nat)
    (context_length : Int) (frames : List α)
    (hread : h.read imgBuf = some frames) (h1 : frames ≠ [])
    (h2 : 0 ≤ context_length) (h3 : context_length ≤ 5) :
    ∃ h' : Heap α,
      get_context_from_seq_heap z h imgBuf context_length =
        .ok (h', h.bufs.length) ∧
      h'.bufs.length = h.bufs.length + 4 ∧
      (∀ j, j < h.bufs.length → h'.read j = h.read j) ∧
      h'.read h.bufs.length = some
        (((List.range frames.length).map
          (fun i => pySlice (paddedOf frames) i
            (i + context_length.toNat))).flatten) := by
  obtain ⟨f0, rest, hfr⟩ : ∃ a l, frames = a :: l := by
    cases hf : frames with
    | nil => exact absurd hf h1
    | cons a l => exact ⟨a, l, rfl⟩
  subst hfr
  simp only [get_context_from_seq_heap, hread, Heap.alloc]
  rw [if_neg (by omega), List.range_eq_range']
  obtain ⟨h', hloop, hlen, hpres, hcontent⟩ :=
    contextLoopH_ok context_length.toNat
      (h.bufs ++ [List.replicate ((f0 :: rest).length * context_length.toNat) z]
        ++ [[f0, f0]] ++ [[rest.getLastD f0, rest.getLastD f0]]).length
      h.bufs.length
      (by simp only [List.length_append, List.length_cons, List.length_nil]; omega)
      (paddedOf (f0 :: rest)) (f0 :: rest).length
      (paddedOf_length _ (by simp)) (by omega)
      (f0 :: rest).length 0
      ⟨h.bufs ++ [List.replicate ((f0 :: rest).length * context_length.toNat) z]
        ++ [[f0, f0]] ++ [[rest.getLastD f0, rest.getLastD f0]]
        ++ [paddedOf (f0 :: rest)]⟩
      (List.replicate ((f0 :: rest).length * context_length.toNat) z)
      (by omega)
      (by
        simp only [Heap.read]
        exact List.getElem?_concat_length _ _)
      (by
        simp only [Heap.read]
        rw [List.getElem?_append_left (by
            simp only [List.length_append, List.length_cons, List.length_nil]
            omega),
          List.getElem?_append_left (by
            simp only [List.length_append, List.length_cons, List.length_nil]
            omega),
          List.getElem?_append_left (by
            simp only [List.length_append, List.length_cons, List.length_nil]
            omega)]
        exact List.getElem?_concat_length _ _)
      (by simp)
  refine ⟨h', ?_, ?_, ?_, ?_⟩
  · rw [hloop]
  · rw [hlen]
    simp only [List.length_append, List.length_cons, List.length_nil]
  · intro j hj
    rw [hpres j (by omega)]
    simp only [Heap.read]
    rw [List.getElem?_append_left (by
        simp only [List.length_append, List.length_cons, List.length_nil]
        omega),
      List.getElem?_append_left (by
        simp only [List.length_append, List.length_cons, List.length_nil]
        omega),
      List.getElem?_append_left (by
        simp only [List.length_append, List.length_cons, List.length_nil]
        omega),
      List.getElem?_append_left hj]
  · rw [hcontent]
    simp [List.range_eq_range']

/-- The storage-level run returns exactly the functional embedding's
windows, flattened into the fresh output buffer. -/
theorem heap_agrees_functional (z : α) (h : Heap α) (imgBuf : Nat)
    (context_length : Int) (img_seq : SeqTensor α)
    (hread : h.read imgBuf = some img_seq.frames)
    (h1 : img_seq.frames ≠ []) (h2 : 0 ≤ context_length)
    (h3 : context_length ≤ 5) :
    ∃ (wb : WindowedBatch α) (h' : Heap α) (outBuf : Nat),
      get_context_from_seq img_seq context_length = .ok wb ∧
      get_context_from_seq_heap z h imgBuf context_length =
        .ok (h', outBuf) ∧
      h'.read outBuf = some wb.windows.flatten := by
  obtain ⟨h', hok, hlen, hpres, hcontent⟩ :=
    get_context_heap_ok z h imgBuf context_length img_seq.frames hread h1 h2 h3
  exact ⟨_, h', h.bufs.length,
    get_context_eq img_seq context_length h1 h2 h3, hok, by rw [hcontent]⟩

/-- Claim C7: the windowing function is pure with respect to its input:
on every valid input the run succeeds, the input buffer (and every other
pre-existing buffer) is bit-identical before and after the call, and the
returned handle is a freshly allocated buffer, not any pre-existing one. -/
theorem C7_pure_no_mutation (z : α) (h : Heap α) (imgBuf : Nat)
    (context_length : Int) (frames : List α)
    (hread : h.read imgBuf = some frames) (h1 : frames ≠ [])
    (h2 : 1 ≤ context_length) (h3 : context_length ≤ 5) :
    ∃ (h' : Heap α) (outBuf : Nat),
      get_context_from_seq_heap z h imgBuf context_length =
        .ok (h', outBuf) ∧
      h'.read imgBuf = h.read imgBuf ∧
      (∀ j, j < h.bufs.length → h'.read j = h.read j) ∧
      h.bufs.length ≤ outBuf ∧
      h'.read outBuf ≠ none := by
  obtain ⟨h', hok, hlen, hpres, hcontent⟩ :=
    get_context_heap_ok z h imgBuf context_length frames hread h1 (by omega) h3
  have himg : imgBuf < h.bufs.length := by
    by_contra hcon
    rw [Heap.read, List.getElem?_eq_none (by omega)] at hread
    exact Option.noConfusion hread
  exact ⟨h', h.bufs.length, hok, hpres imgBuf himg, hpres, le_refl _,
    by rw [hcontent]; exact fun hc => Option.noConfusion hc⟩

/-- A one-buffer store holding a two-frame sequence. -/
def hW0 : Heap Nat := ⟨[[1, 2]]⟩

/-- A two-buffer store holding the same two-frame sequence at handle 1. -/
def hW1 : Heap Nat := ⟨[[9], [1, 2]]⟩

theorem C7_witness :
    ∃ (h' : Heap Nat) (outBuf : Nat),
      get_context_from_seq_heap 0 hW0 0 5 = .ok (h', outBuf) ∧
      h'.read 0 = hW0.read 0 ∧
      (∀ j, j < hW0.bufs.length → h'.read j = hW0.read j) ∧
      hW0.bufs.length ≤ outBuf ∧
      h'.read outBuf ≠ none :=
  C7_pure_no_mutation 0 hW0 0 5 [1, 2] (by decide) (by decide) (by decide)
    (by decide)

/-- Claim C8: determinism — two calls on the same input frames, stored at
any handle in any two stores and with either zero fill, succeed and
return output buffers with bit-identical contents (so in particular two
repeated calls with the same input yield bit-identical outputs). -/
theorem C8_deterministic (z1 z2 : α) (ha hb : Heap α) (b1 b2 : Nat)
    (context_length : Int) (frames : List α)
    (hr1 : ha.read b1 = some frames) (hr2 : hb.read b2 = some frames)
    (h1 : frames ≠ []) (h2 : 1 ≤ context_length)
    (h3 : context_length ≤ 5) :
    ∃ (ha' hb' : Heap α) (o1 o2 : Nat),
      get_context_from_seq_heap z1 ha b1 context_length = .ok (ha', o1) ∧
      get_context_from_seq_heap z2 hb b2 context_length = .ok (hb', o2) ∧
      ha'.read o1 = hb'.read o2 := by
  obtain ⟨ha', hok1, _, _, hc1⟩ :=
    get_context_heap_ok z1 ha b1 context_length frames hr1 h1 (by omega) h3
  obtain ⟨hb', hok2, _, _, hc2⟩ :=
    get_context_heap_ok z2 hb b2 context_length frames hr2 h1 (by omega) h3
  exact ⟨ha', hb', _, _, hok1, hok2, by rw [hc1, hc2]⟩

theorem C8_witness :
    ∃ (ha' hb' : Heap Nat) (o1 o2 : Nat),
      get_context_from_seq_heap 0 hW0 0 5 = .ok (ha', o1) ∧
      get_context_from_seq_heap 7 hW1 1 5 = .ok (hb', o2) ∧
      ha'.read o1 = hb'.read o2 :=
  C8_deterministic 0 7 hW0 hW1 0 1 5 [1, 2] (by decide) (by decide)
    (by decide) (by decide) (by decide)

/-! ## The `LightningWrapper` iterator adapter

`LightningWrapper(DALIGenericIterator)` pops `num_batches` out of its
keyword arguments (default 1) before forwarding them to the parent
constructor; `__len__` returns that stored value and `__next__` pulls one
batch from the parent iterator and returns
`torch.tensor(out[0]["x"][0, :, :, :, :], dtype=torch.float)`.  The
parent DALI iterator is an external collaborator, modelled as an opaque
state `σ` with a step function. -/

/-- Keyword arguments of the constructor, as a name-to-integer
association list. -/
abbrev Kwargs := List (String × Int)

/-- One batch produced by the parent iterator: `out[0]["x"]` is a batched
tensor whose leading (batch) dimension lists the sequences of the step. -/
structure DaliOut (α : Type) where
  xs : List (SeqTensor α)

/-- The wrapper's state: the `num_batches` attribute captured at
construction and the parent iterator's state. -/
structure LightningWrapper (σ : Type) where
  num_batches : Int
  parent : σ

/-- `__init__`: `self.num_batches = kwargs.pop("num_batches", 1)`, then
the parent constructor receives the remaining kwargs. -/
def LightningWrapper.init {σ : Type} (parentInit : Kwargs → σ)
    (kwargs : Kwargs) : LightningWrapper σ :=
  { num_batches := (kwargs.lookup "num_batches").getD 1,
    parent := parentInit (kwargs.filter (fun kv => kv.1 ≠ "num_batches")) }

/-- `__len__`: returns the stored `num_batches`. -/
def LightningWrapper.len {σ : Type} (w : LightningWrapper σ) : Int :=
  w.num_batches

/-- `torch.tensor(x, dtype=torch.float)`: rebuilds the tensor with dtype
float32. -/
def torchTensorFloat (t : SeqTensor α) : SeqTensor α :=
  { t with dtype := DType.float32 }

/-- `__next__`: pulls one batch from the parent iterator and returns
`out[0]["x"][0]` as a float tensor (`none` models the IndexError on an
empty batch; only a per-step batch size of one sequence is valid). -/
def LightningWrapper.next {σ : Type} (step : σ → DaliOut α × σ)
    (w : LightningWrapper σ) :
    Option (SeqTensor α) × LightningWrapper σ :=
  let out := step w.parent
  ((out.1.xs.head?).map torchTensorFloat, { w with parent := out.2 })

/-- Claim C9: `len()` of the wrapper always returns the `num_batches`
value captured at construction — the value popped from the keyword
arguments, defaulting to 1 when not supplied — and this value is
unchanged after any number of steps of the iterator. -/
theorem C9_len_fixed {σ : Type} (parentInit : Kwargs → σ)
    (step : σ → DaliOut α × σ) (kwargs : Kwargs) (n : Nat) :
    LightningWrapper.len
        ((fun w => (LightningWrapper.next step w).2)^[n]
          (LightningWrapper.init parentInit kwargs)) =
      (kwargs.lookup "num_batches").getD 1 := by
  induction n with
  | zero => rfl
  | succ m ih =>
    rw [Function.iterate_succ_apply']
    exact ih

end LightningPose
